import Mathlib

/-!
# Verification of the crawl-and-resume pipeline of `od-get`

Shallow embedding of `src/main.rs` and `src/download/crawl.rs` (Rust).
Strings are modelled as Lean `String` / `List Char`; the two fixed regular
expressions of the source (`RX_MAIN`, `RX_TITLE`) are embedded by a
hand-written matcher for their exact shape (alternating literals and
non-greedy one-or-more captures, where `.` does not match a newline);
URLs are modelled by a record of scheme, host and path segments covering
the hierarchical `http(s)` URLs the program manipulates.
-/

namespace OdGet

/-! ## Data model (`src/download/types.rs`, shape visible from its uses in `src/`) -/

/-- Metadata of a directory link: `DirLinkMetaData` (fields as used in
`crawl.rs`: `url`, `name`, `last_modified`, `description`). -/
structure DirLinkMetaData where
  url : String
  name : String
  last_modified : String
  description : String
deriving DecidableEq, Repr

/-- Metadata of a file link: `FileLinkMetaData` (fields as used in
`crawl.rs`: `url`, `name`, `last_modified`, `size`, `description`). -/
structure FileLinkMetaData where
  url : String
  name : String
  last_modified : String
  size : String
  description : String
deriving DecidableEq, Repr

/-- The node tree: `Node` with the three variants used throughout `src/`:
`PendingDir(meta)`, `CrawledDir(meta, children)`, `File(meta)`. -/
inductive Node where
  | PendingDir (meta : DirLinkMetaData)
  | CrawledDir (meta : DirLinkMetaData) (children : List Node)
  | File (meta : FileLinkMetaData)

/-- The errors the crawl module produces: the make-shift `anyhow` error
`CANNOT_PARSE_DIRECTORY` (the `MalformedListing` of the spec), the
`FromUtf8Error` of `sanitize_html` (the `EncodingError` of the spec), a
transport error carried by `bail!(err)` (the `FetchError` of the spec),
and a `url::ParseError` from `Url::from_str`. -/
inductive CrawlError where
  | cannotParseDirectory
  | encodingError
  | fetchError (msg : String)
  | urlParseError
deriving DecidableEq, Repr

/-! ## The fixed regular expressions

Both `RX_TITLE` and `RX_MAIN` have the shape
`lit₀ (.+?) lit₁ (.+?) lit₂ … litₙ`: literals separated by lazy
one-or-more captures, and in the Rust `regex` crate `.` matches every
character except `\n`.  For such patterns leftmost-first matching is
computed by: scan start positions left to right; at a start where `lit₀`
matches, each capture in turn takes the shortest non-empty stretch that
is followed by its closing literal; a capture fails if a newline or the
end of the text is reached before the closing literal.  (Committing to
the shortest stretch is complete here: a closing literal not found after
the shortest viable capture is not found after a longer one either, and
a newline blocking the shorter capture also blocks every longer one.) -/

/-- Lazy capture: the shortest non-empty stretch of non-newline characters
followed by the literal `close`; returns the capture and the rest after
`close`. -/
def lazyCap (close : List Char) : List Char → Option (List Char × List Char)
  | [] => none
  | c :: s =>
    if c = '\n' then none
    else if close.isPrefixOf s then some ([c], s.drop close.length)
    else
      match lazyCap close s with
      | some (cap, rest) => some (c :: cap, rest)
      | none => none

/-- Match a chain of lazy captures, each terminated by its closing
literal, against the text; returns the list of captures. -/
def matchCaps : List (List Char) → List Char → Option (List (List Char))
  | [], _ => some []
  | close :: more, s =>
    match lazyCap close s with
    | none => none
    | some (cap, rest) =>
      match matchCaps more rest with
      | none => none
      | some caps => some (cap :: caps)

/-- Try to match the full pattern anchored at the start of `s`. -/
def matchHere (lit0 : List Char) (closes : List (List Char)) (s : List Char) :
    Option (List (List Char)) :=
  if lit0.isPrefixOf s then matchCaps closes (s.drop lit0.length) else none

/-- `Regex::captures`: leftmost match of the pattern, returning the list
of captured groups. -/
def searchPattern (lit0 : List Char) (closes : List (List Char)) :
    List Char → Option (List (List Char))
  | [] => matchHere lit0 closes []
  | c :: rest =>
    match matchHere lit0 closes (c :: rest) with
    | some caps => some caps
    | none => searchPattern lit0 closes rest

/-- The leading literal of `RX_TITLE = "<h1>Index of (.+?)</h1>"`. -/
def titleLit : List Char := "<h1>Index of ".toList

/-- The closing literal of `RX_TITLE`. -/
def titleClose : List Char := "</h1>".toList

/-- The leading literal of `RX_MAIN`. -/
def mainLit : List Char := "</td><td><a href=\"".toList

/-- The closing literals of the five captures of `RX_MAIN`
(href, name, last-modified, size, description). -/
def mainCloses : List (List Char) :=
  ["\">".toList,
   "</a></td><td align=\"right\">".toList,
   "  </td><td align=\"right\">".toList,
   "</td><td>".toList,
   "</td></tr>".toList]

/-- `RX_TITLE.captures(text)` restricted to its single group. -/
def rxTitleCapture (text : List Char) : Option (List Char) :=
  match searchPattern titleLit [titleClose] text with
  | some (cap :: _) => some cap
  | _ => none

/-- `RX_MAIN.captures(line)`: the five captured groups, in order
(href, name, last-modified, size, description). -/
def rxMainCaptures (line : List Char) : Option (List (List Char)) :=
  searchPattern mainLit mainCloses line

/-- `get_first(text, RX_TITLE)`: first match, group 1, or the make-shift
`CANNOT_PARSE_DIRECTORY` error. -/
def get_first (text : List Char) : Except CrawlError (List Char) :=
  match rxTitleCapture text with
  | some cap => .ok cap
  | none => .error .cannotParseDirectory

/-! ## URL model

The `url` crate's `Url` restricted to what the program manipulates:
hierarchical `http(s)` URLs, written `scheme://host/seg₀/…/segₙ`.
Query and fragment parts and dot-segment normalization are not modelled
(no claim involves them).  The path-segment list is non-empty for every
URL the model produces (path `/` has segments `[""]`), matching
`Url::path_segments`. -/

structure Url where
  scheme : String
  host : String
  segs : List String
deriving DecidableEq, Repr

/-- Serialization of a URL (`Url::to_string` / `as_str`): the path is
`/` followed by the segments joined with `/`. -/
def Url.toString (u : Url) : String :=
  u.scheme ++ "://" ++ u.host ++ "/" ++ String.intercalate "/" u.segs

/-- Split a path (the part after the first `/`) into segments. -/
def splitSegs (s : List Char) : List String :=
  ((s.splitOn '/').map List.asString)

/-- Parse an absolute `http(s)` URL.  Fails (as `Url::parse` does) when
the host is empty, e.g. on `"http://"`. -/
def parseAbs (r : List Char) : Option Url :=
  let afterScheme : Option (String × List Char) :=
    if "http://".toList.isPrefixOf r then some ("http", r.drop 7)
    else if "https://".toList.isPrefixOf r then some ("https", r.drop 8)
    else none
  match afterScheme with
  | none => none
  | some (sch, rest) =>
    let host := rest.takeWhile (· ≠ '/')
    let path := rest.dropWhile (· ≠ '/')
    if host = [] then none
    else some { scheme := sch, host := host.asString,
                segs := if path = [] then [""] else splitSegs (path.drop 1) }

/-- `Url::from_str` on the canonical strings this model produces. -/
def Url.fromString (s : String) : Option Url :=
  parseAbs s.toList

/-- `base_url.join(href)` (WHATWG relative resolution, restricted to the
reference forms the model covers): an absolute `http(s)` URL is parsed on
its own; `//…` takes the base's scheme; `/…` replaces the whole path;
anything else replaces the last segment of the base's path by the
reference's segments. -/
def Url.join (base : Url) (href : String) : Option Url :=
  let r := href.toList
  if "http://".toList.isPrefixOf r ∨ "https://".toList.isPrefixOf r then
    parseAbs r
  else if "//".toList.isPrefixOf r then
    parseAbs (base.scheme.toList ++ ":".toList ++ r)
  else if "/".toList.isPrefixOf r then
    some { base with segs := splitSegs (r.drop 1) }
  else
    some { base with segs := base.segs.dropLast ++ splitSegs r }

/-- `PathSegmentsMut::pop_if_empty`: remove the last path segment if it
is empty, except when the path is just `/` (a single segment). -/
def popIfEmpty (segs : List String) : List String :=
  if segs.length ≤ 1 then segs
  else if segs.getLast? = some "" then segs.dropLast else segs

/-- `clean_url`: seventeen applications of `pop_if_empty` on the URL's
path segments. -/
def clean_url (u : Url) : Url :=
  { u with segs := (popIfEmpty)^[17] u.segs }

/-! ## Listing parser (`crawl.rs`) -/

/-- `EMPTY_SIZE_STRING`: the server's size placeholder for non-file rows. -/
def EMPTY_SIZE_STRING : String := "  - "

/-- The body of `cheap_process_row` after `RX_MAIN` has matched, taking
the five captured groups: resolve the href against the base URL (a
failed resolution makes the row produce no node, through `.ok()?`), then
classify by the size capture: the placeholder `"  - "` gives a
`PendingDir`, anything else a `File` whose URL is first normalized by
`clean_url`. -/
def processCaptures (base : Url) (href name date size desc : List Char) :
    Option Node :=
  match base.join href.asString with
  | none => none
  | some u =>
    if size.asString = EMPTY_SIZE_STRING then
      some (Node.PendingDir
        { url := u.toString, name := name.asString,
          last_modified := date.asString, description := desc.asString })
    else
      some (Node.File
        { url := (clean_url u).toString, name := name.asString,
          last_modified := date.asString, size := size.asString,
          description := desc.asString })

/-- `cheap_process_row(base_url)(line)`: match the line against `RX_MAIN`
and turn the captures into at most one node. -/
def cheap_process_row (base : Url) (line : List Char) : Option Node :=
  match rxMainCaptures line with
  | some [href, name, date, size, desc] => processCaptures base href name date size desc
  | _ => none

/-- `str::lines` / rayon's `par_lines`: split at `\n`, dropping one `\r`
just before each `\n`; a final line terminator produces no extra empty
line.  (The parallel iterator's `collect` preserves input order, so the
parallel map is modelled by a sequential one.) -/
def splitLines (s : List Char) : List (List Char) :=
  match s.splitOn '\n' with
  | [] => []
  | parts =>
    (if parts.getLast? = some [] then parts.dropLast else parts).map
      (fun l => if l.getLast? = some '\r' then l.dropLast else l)

/-- `cheap_extract_from_html(html, base_url)`: the directory title via
`get_first`/`RX_TITLE`, then every line filter-mapped through
`cheap_process_row`. -/
def cheap_extract_from_html (html : List Char) (base : Url) :
    Except CrawlError (String × List Node) :=
  match get_first html with
  | .error e => .error e
  | .ok dirName =>
    .ok (dirName.asString, (splitLines html).filterMap (cheap_process_row base))

/-! ## Crawl expander and root acquisition (`crawl.rs`)

The HTTP client (`reqwest::Client`) is modelled as a function from the
requested URL string to the outcome of `send()` + `.text()`: a
transport-layer failure of `send`, a failure while reading the body, or
the body text.  The HTML-entity decoder (`sanitize_html`, backed by the
external `html_escape` crate plus `String::from_utf8`) is modelled as a
parameter producing either the sanitized text or an `EncodingError`. -/

/-- Outcome of one `client.get(url).send().await` + `.text().await`. -/
inductive FetchOutcome where
  | sendError (msg : String)
  | bodyError
  | ok (body : String)

/-- The HTTP client, keyed by the requested URL string. -/
def Client : Type := String → FetchOutcome

/-- The `sanitize_html` collaborator. -/
def Sanitizer : Type := String → Except CrawlError String

/-- How one step of `expand_node` ends when it does not continue:
a returned error (`bail!` / `?`) or a Rust panic (`expect`). -/
inductive StepFailure where
  | err (e : CrawlError)
  | panicked
deriving DecidableEq, Repr

/-- The body of `expand_node`'s loop for a single node: a `PendingDir`
is fetched (transport failure ⇒ `bail!(err)`; body-read failure ⇒
`expect`, i.e. panic), sanitized, its URL re-parsed, the page parsed,
and on success the node is replaced in place by a `CrawledDir` carrying
the parsed title as name, the parsed children, and the original
metadata's url/description/last-modified.  Any other node is skipped.
The middle component records the URLs fetched by this step. -/
def expandOne (client : Client) (sanitize : Sanitizer) (node : Node) :
    Node × List String × Option StepFailure :=
  match node with
  | .PendingDir dir =>
    match client dir.url with
    | .sendError msg => (.PendingDir dir, [dir.url], some (.err (.fetchError msg)))
    | .bodyError => (.PendingDir dir, [dir.url], some .panicked)
    | .ok body =>
      match sanitize body with
      | .error e => (.PendingDir dir, [dir.url], some (.err e))
      | .ok html =>
        match Url.fromString dir.url with
        | none => (.PendingDir dir, [dir.url], some (.err .urlParseError))
        | some base =>
          match cheap_extract_from_html html.toList base with
          | .error e => (.PendingDir dir, [dir.url], some (.err e))
          | .ok (title, kids) =>
            (.CrawledDir
              { url := dir.url, name := title,
                description := dir.description,
                last_modified := dir.last_modified } kids,
             [dir.url], none)
  | n => (n, [], none)

/-- `expand_node(nodes, client)`: iterate the vector in order, expanding
every `PendingDir`; the first failure returns immediately, leaving the
current node and the remaining suffix as they were (the in-place
mutations of the already-processed nodes persist).  Returns the final
state of the vector, the fetch log, and the failure if any. -/
def expand_node (client : Client) (sanitize : Sanitizer) :
    List Node → List Node × List String × Option StepFailure
  | [] => ([], [], none)
  | n :: rest =>
    match expandOne client sanitize n with
    | (n', log, some e) => (n' :: rest, log, some e)
    | (n', log, none) =>
      let (rest', log', r) := expand_node client sanitize rest
      (n' :: rest', log ++ log', r)

/-- How `get_root_dir` can end: a Rust panic (its two `.unwrap()` calls),
a returned error (`?`), or a node. -/
inductive RootResult where
  | panicked
  | failed (e : CrawlError)
  | ok (n : Node)

/-- `get_root_dir(url, client)`: fetch the root URL — both a transport
failure and a body-read failure hit an `.unwrap()` and panic — then
sanitize (`?`), parse (`?`), and wrap the result in a `CrawledDir` whose
description and last-modified are empty strings. -/
def get_root_dir (url : Url) (client : Client) (sanitize : Sanitizer) : RootResult :=
  match client url.toString with
  | .sendError _ => .panicked
  | .bodyError => .panicked
  | .ok res =>
    match sanitize res with
    | .error e => .failed e
    | .ok html =>
      match cheap_extract_from_html html.toList url with
      | .error e => .failed e
      | .ok (title, kids) =>
        .ok (.CrawledDir
          { url := url.toString, name := title,
            description := "", last_modified := "" } kids)

/-! ## State store and checkpointing (`main.rs`; `StateStore` itself
lives in `src/download/types.rs`, which is not under `src/`) -/

/-- `CrawlingState` with the three variants matched in `main.rs`:
`None`, `Partial(..)`, `Complete(root)`.  The payload of `Partial` is
modelled from the spec (§3: "`Partial(snapshot-so-far)`"). -/
inductive CrawlingState where
  | None
  | Partial (snapshot : Node)
  | Complete (root : Node)

/-- The persisted state store, with the fields `main.rs` reads and
writes: `crawling_state`, `downloaded_urls`, and (modelled from the
spec, §3) a last-modified timestamp updated by `update_modified_time`. -/
structure StateStore where
  crawling_state : CrawlingState
  downloaded_urls : List String
  last_modified_timestamp : Nat

/-- Modelled from the spec: `StateStore::new` (defined in
`src/download/types.rs`, not under `src/`) — the fresh state: crawl
phase `NotStarted`/`None` and an empty done-list. -/
def StateStore.new : StateStore :=
  { crawling_state := .None, downloaded_urls := [], last_modified_timestamp := 0 }

/-- Modelled from the spec: `StateStore::update_modified_time` (defined
in `src/download/types.rs`, not under `src/`) — sets the last-modified
timestamp to the current time, passed here explicitly. -/
def StateStore.update_modified_time (s : StateStore) (now : Nat) : StateStore :=
  { s with last_modified_timestamp := now }

/-- The checkpoint load of `main.rs` (lines 40–52):
`serde_json::from_str(read_to_string(path).unwrap_or("make-new")).unwrap_or(StateStore::new())`.
The file contents are `none` when `read_to_string` fails (missing file);
`parse` models `serde_json::from_str`, returning `none` on a JSON parse
failure. -/
def loadStateStore (parse : String → Option StateStore) (file : Option String) :
    StateStore :=
  match parse (file.getD "make-new") with
  | some st => st
  | none => StateStore.new

/-- The checkpoint write after a completed crawl (`main.rs` lines 70–76):
update the modified time and set the crawl phase to `Complete(root)`;
the resulting store is what `fs::write` persists. -/
def crawlSave (store : StateStore) (root : Node) (now : Nat) : StateStore :=
  { store.update_modified_time now with crawling_state := .Complete root }

/-! ## The download phase of `main` (`main.rs` lines 111–169)

`download_recursive` lives in `src/download/fetch.rs`, which is not
under `src/`; its observable effect is modelled from the spec (§4.4,
Scenario D): an invocation appends the URLs of the files it successfully
downloads to the `done_list` (in order, before returning), and then
either returns a status — for the first-level call, `Do(queue)` with the
deferred sub-trees, an empty queue standing for `Done` — or propagates a
fatal error, the appends made before the failure persisting. -/

/-- Modelled from the spec: the observable effect of one queued
`download_recursive` task in the loop of `main.rs` (lines 128–159). -/
structure DlTask where
  adds : List String
  failure : Option String

/-- Modelled from the spec: the observable effect of the first-level
`download_recursive` call of `main.rs` (lines 116–125): appends, then
either an error or the continuation queue. -/
structure DlFirst where
  adds : List String
  outcome : Except String (List DlTask)

/-- How the process run ends: `Ok(())` or `bail!`/`?` with an error. -/
inductive ExitStatus where
  | success
  | failure (msg : String)
deriving DecidableEq, Repr

/-- The loop over the continuation queue (`main.rs` lines 127–159), for
a run with a configured state-store path:  each task's downloads are
appended to `done_list`; on a task error the state store's done-list is
updated, the store is persisted, and the error is re-raised (`bail!`).
Returns (disk contents, error if any, final done-list). -/
def runQueue (store : StateStore) (now : Nat) :
    List DlTask → StateStore → List String → StateStore × Option String × List String
  | [], disk, done => (disk, none, done)
  | t :: rest, disk, done =>
    let done' := done ++ t.adds
    match t.failure with
    | some msg =>
      ({ store.update_modified_time now with downloaded_urls := done' }, some msg, done')
    | none => runQueue store now rest disk done'

/-- The whole download phase of `main.rs` (lines 111–169) for a run with
a configured state-store path and `--no-download` not set.  `store` is
the in-memory state store after the crawl, `disk` the store last written
to the checkpoint file, `done` the in-memory done-list.  The first-level
call's error propagates through `?` *without* touching the checkpoint;
a loop task's error checkpoints first; a fully successful phase ends in
`write_state` (persist phase + done-list) and success.
Returns (final disk contents, exit status, final done-list). -/
def downloadPhase (store : StateStore) (disk : StateStore) (done : List String)
    (first : DlFirst) (now : Nat) : StateStore × ExitStatus × List String :=
  let done₁ := done ++ first.adds
  match first.outcome with
  | .error msg => (disk, .failure msg, done₁)
  | .ok queue =>
    match runQueue store now queue disk done₁ with
    | (disk', some msg, done₂) => (disk', .failure msg, done₂)
    | (_, none, done₂) =>
      ({ store.update_modified_time now with downloaded_urls := done₂ },
       .success, done₂)

/-! ## Helper predicates -/

/-- Is the node a `PendingDir`? -/
def Node.isPendingDir : Node → Bool
  | .PendingDir _ => true
  | _ => false

/-- Is the node a `File`? -/
def Node.isFile : Node → Bool
  | .File _ => true
  | _ => false

/-! ## Shared concrete test fixtures -/

/-- A base URL `http://h/pub/` as produced by the crawler. -/
def baseU : Url := { scheme := "http", host := "h", segs := ["pub", ""] }

/-- The identity sanitizer (no entities to decode, valid UTF-8). -/
def idSanitize : Sanitizer := fun s => .ok s

/-- A listing row for a sub-directory (size field is the placeholder). -/
def dirRow : String :=
  "</td><td><a href=\"sub/\">sub</a></td><td align=\"right\">2021-01-01 10:00  </td><td align=\"right\">  - </td><td>x</td></tr>"

/-- A listing row for a file of size `1.2K`. -/
def fileRow : String :=
  "</td><td><a href=\"f.txt\">f.txt</a></td><td align=\"right\">2021-01-01 10:00  </td><td align=\"right\">1.2K</td><td>d</td></tr>"

/-! ## C1 -/

/-- A crawled root node for the C1 run. -/
def c1Root : Node :=
  .CrawledDir { url := "http://h/pub/", name := "/pub",
                description := "", last_modified := "" } []

/-- The state store as persisted right after the crawl of the C1 run:
fresh store, phase `Complete`, modified time updated (`main.rs` 70–77). -/
def c1Store : StateStore := crawlSave StateStore.new c1Root 1

/-- C1: refuted on the code — when the *first-level* `download_recursive`
call fails, `main` propagates the error with `?` (line 124) without
re-writing the checkpoint, so a file downloaded by that call (its URL
appended to the in-memory done-list) is *not* in the persisted
done-list when the process exits with a failure, contrary to the claim
that every already-downloaded file is durably recorded before a
non-zero exit. -/
theorem c1_first_call_failure_skips_checkpoint :
    downloadPhase c1Store c1Store []
        { adds := ["http://h/pub/a"], outcome := .error "connection reset" } 2 =
      (c1Store, .failure "connection reset", ["http://h/pub/a"]) ∧
    c1Store.downloaded_urls = [] :=
  ⟨rfl, rfl⟩

/-! ## C8 -/

/-- C8: the checkpoint load is permissive — a missing file (the
`unwrap_or("make-new")` fallback, which is not valid JSON) or contents
the JSON parser rejects both yield the fresh state (`NotStarted`/`None`
phase, empty done-list) without raising an error, while parseable
contents are deserialized as-is.  `parse` models `serde_json::from_str`;
the hypothesis records that `"make-new"` is not valid JSON. -/
theorem c8_load_permissive (parse : String → Option StateStore)
    (hmn : parse "make-new" = none) :
    loadStateStore parse none = StateStore.new ∧
    (∀ s, parse s = none → loadStateStore parse (some s) = StateStore.new) ∧
    (∀ s st, parse s = some st → loadStateStore parse (some s) = st) ∧
    StateStore.new.crawling_state = CrawlingState.None ∧
    StateStore.new.downloaded_urls = [] := by
  refine ⟨?_, ?_, ?_, rfl, rfl⟩
  · simp [loadStateStore, hmn]
  · intro s hs; simp [loadStateStore, hs]
  · intro s st hs; simp [loadStateStore, hs]

/-- C8 witness: the load with a parser rejecting everything and a
missing file gives the fresh state. -/
theorem c8_load_permissive_witness :
    loadStateStore (fun _ => Option.none) Option.none = StateStore.new :=
  (c8_load_permissive (fun _ => Option.none) rfl).1

/-! ## C4 -/

/-- The root URL `http://h/` of the C4 scenarios. -/
def c4Url : Url := { scheme := "http", host := "h", segs := [""] }

/-- A client whose `send` always fails at the transport layer. -/
def c4BadClient : Client := fun _ => .sendError "connection refused"

/-- C4 counterexample: on a transport failure `get_root_dir` hits
`.unwrap()` and panics — it does not return a `FetchError` (or any
error value), contrary to the claim. -/
theorem c4_counterexample :
    get_root_dir c4Url c4BadClient idSanitize = .panicked ∧
    ∀ e : CrawlError, get_root_dir c4Url c4BadClient idSanitize ≠ .failed e := by
  refine ⟨rfl, ?_⟩
  intro e h
  rw [show get_root_dir c4Url c4BadClient idSanitize = .panicked from rfl] at h
  exact RootResult.noConfusion h

/-- C4 (amended): root acquisition always fetches; on a transport or
body-read failure it *panics* (the two `.unwrap()`s) rather than
returning an error; a sanitizer (`EncodingError`) or parser failure is
returned as that error value; on success it returns a `CrawledDir`
(`ExpandedDirectory`) whose description and last-modified are empty. -/
theorem c4_amended (url : Url) (client : Client) (sanitize : Sanitizer) :
    (∀ msg, client url.toString = .sendError msg →
      get_root_dir url client sanitize = .panicked) ∧
    (client url.toString = .bodyError →
      get_root_dir url client sanitize = .panicked) ∧
    (∀ res e, client url.toString = .ok res → sanitize res = .error e →
      get_root_dir url client sanitize = .failed e) ∧
    (∀ res html e, client url.toString = .ok res → sanitize res = .ok html →
      cheap_extract_from_html html.toList url = .error e →
      get_root_dir url client sanitize = .failed e) ∧
    (∀ res html title kids, client url.toString = .ok res →
      sanitize res = .ok html →
      cheap_extract_from_html html.toList url = .ok (title, kids) →
      get_root_dir url client sanitize =
        .ok (.CrawledDir { url := url.toString, name := title,
                           description := "", last_modified := "" } kids)) := by
  refine ⟨?_, ?_, ?_, ?_, ?_⟩ <;> intros <;> simp only [get_root_dir, *]

/-- C4 witness: the amended claim at a concrete client whose page is a
bare heading: the result is the `CrawledDir` with empty description and
last-modified. -/
theorem c4_amended_witness :
    get_root_dir c4Url (fun _ => .ok "<h1>Index of /pub</h1>") idSanitize =
      .ok (.CrawledDir { url := "http://h/", name := "/pub",
                         description := "", last_modified := "" } []) :=
  (c4_amended c4Url (fun _ => .ok "<h1>Index of /pub</h1>") idSanitize).2.2.2.2
    "<h1>Index of /pub</h1>" "<h1>Index of /pub</h1>" "/pub" [] rfl rfl rfl

/-! ## C5 -/

/-- C5: expanding a `PendingDir` whose fetch fails at the transport
layer returns the transport error as a `FetchError`, leaves the node
unchanged with identical metadata, and issues exactly one fetch of the
node's URL (the singleton fetch log — no internal retry); the same holds
for the vector-level `expand_node` on the singleton vector. -/
theorem c5_transport_failure_leaves_node (client : Client)
    (sanitize : Sanitizer) (dir : DirLinkMetaData) (msg : String)
    (h : client dir.url = .sendError msg) :
    expandOne client sanitize (.PendingDir dir) =
      (.PendingDir dir, [dir.url], some (.err (.fetchError msg))) ∧
    expand_node client sanitize [.PendingDir dir] =
      ([.PendingDir dir], [dir.url], some (.err (.fetchError msg))) := by
  constructor
  · simp only [expandOne, h]
  · simp only [expand_node, expandOne, h]

/-- The directory metadata used by the C5/C6 witnesses. -/
def subDir : DirLinkMetaData :=
  { url := "http://h/pub/sub/", name := "sub",
    last_modified := "2021-01-01 10:00", description := "x" }

/-- C5 witness: a concrete always-failing client. -/
theorem c5_transport_failure_leaves_node_witness :
    expandOne (fun _ => .sendError "timeout") idSanitize (.PendingDir subDir) =
      (.PendingDir subDir, [subDir.url], some (.err (.fetchError "timeout"))) :=
  (c5_transport_failure_leaves_node (fun _ => .sendError "timeout")
    idSanitize subDir "timeout" rfl).1

/-! ## C6 -/

/-- C6: expanding a `PendingDir` whose fetch, sanitization, URL re-parse
and page parse all succeed replaces it by a `CrawledDir` whose name is
the title parsed from the child page, whose children are the freshly
parsed entries in parsed order, and whose url, description and
last-modified are the original pending metadata's. -/
theorem c6_success_replaces_node (client : Client) (sanitize : Sanitizer)
    (dir : DirLinkMetaData) (body html : String) (base : Url)
    (title : String) (kids : List Node)
    (h1 : client dir.url = .ok body) (h2 : sanitize body = .ok html)
    (h3 : Url.fromString dir.url = some base)
    (h4 : cheap_extract_from_html html.toList base = .ok (title, kids)) :
    expandOne client sanitize (.PendingDir dir) =
      (.CrawledDir { url := dir.url, name := title,
                     description := dir.description,
                     last_modified := dir.last_modified } kids,
       [dir.url], none) := by
  simp only [expandOne, h1, h2, h3, h4]

/-- The child page served for `subDir` in the C6/C9/C10 witnesses:
a title heading plus one sub-sub-directory row. -/
def subHtml : String := "<h1>Index of /pub/sub</h1>\n" ++ dirRow

/-- C6 witness: the concrete expansion of `subDir` against a client
serving `subHtml`: the node becomes a `CrawledDir` named by the child
page's title, with the parsed grandchild, keeping the parent-listing
description and last-modified. -/
theorem c6_success_replaces_node_witness :
    expandOne (fun _ => .ok subHtml) idSanitize (.PendingDir subDir) =
      (.CrawledDir { url := "http://h/pub/sub/", name := "/pub/sub",
                     description := "x", last_modified := "2021-01-01 10:00" }
        [.PendingDir { url := "http://h/pub/sub/sub/", name := "sub",
                       last_modified := "2021-01-01 10:00", description := "x" }],
       ["http://h/pub/sub/"], none) :=
  c6_success_replaces_node (fun _ => .ok subHtml) idSanitize subDir subHtml subHtml
    { scheme := "http", host := "h", segs := ["pub", "sub", ""] }
    "/pub/sub"
    [.PendingDir { url := "http://h/pub/sub/sub/", name := "sub",
                   last_modified := "2021-01-01 10:00", description := "x" }]
    rfl rfl rfl rfl

/-! ## Structural lemmas about `expand_node` and the parsed rows -/

/-- A row that parses at all is a `PendingDir` or a `File`, never a
`CrawledDir`. -/
theorem row_shape (base : Url) (line : List Char) (n : Node)
    (h : cheap_process_row base line = some n) :
    n.isPendingDir = true ∨ n.isFile = true := by
  unfold cheap_process_row at h
  split at h
  · next href name date size desc =>
    unfold processCaptures at h
    split at h
    · exact absurd h (by simp)
    · split at h
      · simp only [Option.some.injEq] at h
        subst h
        left; rfl
      · simp only [Option.some.injEq] at h
        subst h
        right; rfl
  · exact absurd h (by simp)

/-- Every child produced by the listing parser is a `PendingDir` or a
`File`. -/
theorem extract_children_shape (html : List Char) (base : Url)
    (t : String) (kids : List Node)
    (h : cheap_extract_from_html html base = .ok (t, kids)) :
    ∀ c ∈ kids, c.isPendingDir = true ∨ c.isFile = true := by
  unfold cheap_extract_from_html at h
  split at h
  · exact absurd h (by simp)
  · simp only [Except.ok.injEq, Prod.mk.injEq] at h
    obtain ⟨-, h2⟩ := h
    subst h2
    intro c hc
    rw [List.mem_filterMap] at hc
    obtain ⟨line, -, hl⟩ := hc
    exact row_shape base line c hl

/-- A successful `expandOne` step on a `PendingDir` yields a
`CrawledDir` all of whose children are `PendingDir`s or `File`s. -/
theorem expandOne_ok_pending (client : Client) (sanitize : Sanitizer)
    (dir : DirLinkMetaData) (n' : Node) (log : List String)
    (h : expandOne client sanitize (.PendingDir dir) = (n', log, none)) :
    ∃ m kids, n' = .CrawledDir m kids ∧
      ∀ c ∈ kids, c.isPendingDir = true ∨ c.isFile = true := by
  simp only [expandOne] at h
  split at h
  · simp at h
  · simp at h
  · split at h
    · simp at h
    · split at h
      · simp at h
      · split at h
        · simp at h
        · next title kids hx =>
          simp only [Prod.mk.injEq] at h
          obtain ⟨h1, -, -⟩ := h
          exact ⟨_, kids, h1.symm, extract_children_shape _ _ _ _ hx⟩

/-- Prepending a successfully expanded prefix: the suffix is processed
independently, its result appended to the prefix's. -/
theorem expand_node_append (client : Client) (sanitize : Sanitizer)
    (pre rest : List Node) (pre' : List Node) (log : List String)
    (hpre : expand_node client sanitize pre = (pre', log, none)) :
    expand_node client sanitize (pre ++ rest) =
      (pre' ++ (expand_node client sanitize rest).1,
       log ++ (expand_node client sanitize rest).2.1,
       (expand_node client sanitize rest).2.2) := by
  induction pre generalizing pre' log with
  | nil =>
    simp only [expand_node, Prod.mk.injEq] at hpre
    obtain ⟨rfl, rfl, -⟩ := hpre
    simp
  | cons n tail ih =>
    simp only [expand_node] at hpre
    rcases he : expandOne client sanitize n with ⟨n', log0, r⟩
    rw [he] at hpre
    cases r with
    | some e => simp at hpre
    | none =>
      rcases ht : expand_node client sanitize tail with ⟨tail', log1, r1⟩
      rw [ht] at hpre
      simp only [Prod.mk.injEq] at hpre
      obtain ⟨rfl, rfl, hr1⟩ := hpre
      cases r1 with
      | some e => simp at hr1
      | none =>
        have hrec := ih tail' log1 ht
        simp only [List.cons_append, expand_node, he, List.append_eq, hrec,
          List.append_assoc]

/-! ## C10 -/

/-- C10: the vector-wide expansion is not atomic — if a pending
directory in the middle fails its fetch, `expand_node` returns that
first error, the in-place expansions of the nodes before it persist in
the vector, the failing node and every node after it are untouched, and
the failing node's URL was fetched exactly once more than the prefix's
fetches. -/
theorem c10_expansion_not_atomic (client : Client) (sanitize : Sanitizer)
    (pre suf : List Node) (d : DirLinkMetaData) (msg : String)
    (pre' : List Node) (log : List String)
    (hpre : expand_node client sanitize pre = (pre', log, none))
    (hfail : client d.url = .sendError msg) :
    expand_node client sanitize (pre ++ .PendingDir d :: suf) =
      (pre' ++ .PendingDir d :: suf, log ++ [d.url],
       some (.err (.fetchError msg))) := by
  rw [expand_node_append client sanitize pre (.PendingDir d :: suf) pre' log hpre]
  simp only [expand_node, expandOne, hfail]

/-- The client of the C10 witness: serves `subHtml` for `subDir`'s URL
and fails for every other URL. -/
def c10Client : Client := fun u =>
  if u = "http://h/pub/sub/" then .ok subHtml else .sendError "boom"

/-- The second pending directory of the C10 witness, whose fetch fails. -/
def otherDir : DirLinkMetaData :=
  { url := "http://h/pub/other/", name := "other",
    last_modified := "2021-01-01 10:00", description := "y" }

/-- A third, untouched pending directory for the C10 witness. -/
def thirdDir : DirLinkMetaData :=
  { url := "http://h/pub/third/", name := "third",
    last_modified := "2021-01-01 10:00", description := "z" }

/-- C10 witness: expanding `[subDir, otherDir, thirdDir]` where
`otherDir`'s fetch fails: `subDir`'s expansion persists, `otherDir` and
`thirdDir` stay pending, the first error is returned. -/
theorem c10_expansion_not_atomic_witness :
    expand_node c10Client idSanitize
        [.PendingDir subDir, .PendingDir otherDir, .PendingDir thirdDir] =
      ([.CrawledDir { url := "http://h/pub/sub/", name := "/pub/sub",
                      description := "x", last_modified := "2021-01-01 10:00" }
          [.PendingDir { url := "http://h/pub/sub/sub/", name := "sub",
                         last_modified := "2021-01-01 10:00", description := "x" }],
        .PendingDir otherDir, .PendingDir thirdDir],
       ["http://h/pub/sub/", "http://h/pub/other/"],
       some (.err (.fetchError "boom"))) :=
  c10_expansion_not_atomic c10Client idSanitize [.PendingDir subDir]
    [.PendingDir thirdDir] otherDir "boom"
    [.CrawledDir { url := "http://h/pub/sub/", name := "/pub/sub",
                   description := "x", last_modified := "2021-01-01 10:00" }
       [.PendingDir { url := "http://h/pub/sub/sub/", name := "sub",
                      last_modified := "2021-01-01 10:00", description := "x" }]]
    ["http://h/pub/sub/"] rfl rfl

/-! ## C9 -/

/-- C9: one successful invocation of `expand_node` expands every
`PendingDir` among the immediate nodes into a `CrawledDir`, and never
recurses into the freshly parsed children: every child of such a fresh
`CrawledDir` — in particular every grandchild directory discovered in
this invocation — is still a `PendingDir` (or a `File`). -/
theorem c9_single_level_expansion (client : Client) (sanitize : Sanitizer)
    (nodes result : List Node) (log : List String)
    (h : expand_node client sanitize nodes = (result, log, none)) :
    result.length = nodes.length ∧
    ∀ (i : Nat) (dir : DirLinkMetaData),
      nodes[i]? = some (.PendingDir dir) →
      ∃ (m : DirLinkMetaData) (kids : List Node),
        result[i]? = some (.CrawledDir m kids) ∧
        ∀ c ∈ kids, c.isPendingDir = true ∨ c.isFile = true := by
  induction nodes generalizing result log with
  | nil =>
    simp only [expand_node, Prod.mk.injEq] at h
    obtain ⟨rfl, -, -⟩ := h
    exact ⟨rfl, by intro i dir hi; simp at hi⟩
  | cons n tail ih =>
    simp only [expand_node] at h
    rcases he : expandOne client sanitize n with ⟨n', log0, r⟩
    rw [he] at h
    cases r with
    | some e => simp at h
    | none =>
      rcases ht : expand_node client sanitize tail with ⟨tail', log1, r1⟩
      rw [ht] at h
      simp only [Prod.mk.injEq] at h
      obtain ⟨rfl, -, hr1⟩ := h
      cases r1 with
      | some e => simp at hr1
      | none =>
        obtain ⟨hlen, htail⟩ := ih tail' log1 ht
        refine ⟨by simp [hlen], ?_⟩
        intro i dir hi
        cases i with
        | zero =>
          simp only [List.getElem?_cons_zero, Option.some.injEq] at hi
          subst hi
          obtain ⟨m, kids, rfl, hkids⟩ :=
            expandOne_ok_pending client sanitize dir n' log0 he
          exact ⟨m, kids, by simp, hkids⟩
        | succ j =>
          simp only [List.getElem?_cons_succ] at hi ⊢
          exact htail j dir hi

/-- C9 witness: the concrete expansion of `[subDir]` against the client
serving `subHtml`: position 0 became a `CrawledDir` whose children (the
freshly discovered grandchild directory among them) are still pending. -/
theorem c9_single_level_expansion_witness :
    ∃ (m : DirLinkMetaData) (kids : List Node),
      ([Node.CrawledDir
          { url := "http://h/pub/sub/", name := "/pub/sub",
            description := "x", last_modified := "2021-01-01 10:00" }
          [.PendingDir { url := "http://h/pub/sub/sub/", name := "sub",
                         last_modified := "2021-01-01 10:00",
                         description := "x" }]] : List Node)[0]? =
        some (.CrawledDir m kids) ∧
      ∀ c ∈ kids, c.isPendingDir = true ∨ c.isFile = true :=
  (c9_single_level_expansion (fun _ => .ok subHtml) idSanitize
    [.PendingDir subDir]
    [Node.CrawledDir
       { url := "http://h/pub/sub/", name := "/pub/sub",
         description := "x", last_modified := "2021-01-01 10:00" }
       [.PendingDir { url := "http://h/pub/sub/sub/", name := "sub",
                      last_modified := "2021-01-01 10:00",
                      description := "x" }]]
    ["http://h/pub/sub/"] rfl).2 0 subDir rfl

/-! ## C3 -/

/-- Iterating `pop_if_empty` `n` times on a path whose last non-empty
part is `s` strips `min n k` of the `k` trailing empty segments. -/
theorem popIfEmpty_iterate (n : Nat) (s : List String) (hs : s ≠ [])
    (hlast : s.getLast? ≠ some "") (k : Nat) :
    (popIfEmpty)^[n] (s ++ List.replicate k "") = s ++ List.replicate (k - n) "" := by
  induction n generalizing k with
  | zero => simp
  | succ n ih =>
    rw [Function.iterate_succ_apply]
    cases k with
    | zero =>
      have h0 : popIfEmpty (s ++ List.replicate 0 "") = s ++ List.replicate 0 "" := by
        simp only [List.replicate, List.append_nil]
        unfold popIfEmpty
        rcases le_or_lt s.length 1 with hl | hl
        · rw [if_pos hl]
        · rw [if_neg (not_le.mpr hl), if_neg hlast]
      rw [h0, ih 0]
      simp
    | succ j =>
      have h1 : popIfEmpty (s ++ List.replicate (j + 1) "") =
          s ++ List.replicate j "" := by
        unfold popIfEmpty
        rw [if_neg, if_pos]
        · rw [List.replicate_succ', ← List.append_assoc, List.dropLast_concat]
        · rw [List.replicate_succ', ← List.append_assoc, List.getLast?_concat]
        · have h2 : 1 ≤ s.length := List.length_pos.mpr hs
          simp only [List.length_append, List.length_replicate, not_le]
          omega
      rw [h1, ih j]
      congr 2
      omega

/-- C3: `clean_url` strips trailing empty path segments, at most 17 of
them — with more than 17 the remaining ones are kept, and nothing fails
— and the row parser applies it to file URLs only: the directory branch
stores the resolved URL as-is while the file branch stores the
`clean_url`-normalized one. -/
theorem c3_clean_url_bounded_and_file_only :
    (∀ (u : Url) (s : List String) (k : Nat),
      u.segs = s ++ List.replicate k "" → s ≠ [] → s.getLast? ≠ some "" →
      (clean_url u).segs = s ++ List.replicate (k - 17) "") ∧
    (∀ (base : Url) (href name date size desc : List Char) (u : Url),
      base.join href.asString = some u →
      (size.asString = EMPTY_SIZE_STRING →
        processCaptures base href name date size desc =
          some (.PendingDir { url := u.toString, name := name.asString,
                              last_modified := date.asString,
                              description := desc.asString })) ∧
      (size.asString ≠ EMPTY_SIZE_STRING →
        processCaptures base href name date size desc =
          some (.File { url := (clean_url u).toString, name := name.asString,
                        last_modified := date.asString, size := size.asString,
                        description := desc.asString }))) := by
  constructor
  · intro u s k hsegs hs hlast
    simp only [clean_url, hsegs]
    exact popIfEmpty_iterate 17 s hs hlast k
  · intro base href name date size desc u hj
    constructor
    · intro hsz
      simp only [processCaptures, hj, if_pos hsz]
    · intro hsz
      simp only [processCaptures, hj, if_neg hsz]

/-- C3 witness: seven trailing empty segments are stripped entirely
(`…/sub///////` becomes `…/sub`); twenty are stripped down to three;
and on the concrete captures of a file row the stored URL is the
normalized one, while the same captures with the placeholder size store
the unnormalized directory URL. -/
theorem c3_clean_url_bounded_and_file_only_witness :
    (clean_url { scheme := "http", host := "h",
                 segs := ["sub"] ++ List.replicate 7 "" }).segs = ["sub"] ∧
    (clean_url { scheme := "http", host := "h",
                 segs := ["a"] ++ List.replicate 20 "" }).segs =
      ["a"] ++ List.replicate 3 "" ∧
    processCaptures baseU "sub///////".toList "f".toList
        "2021-01-01 10:00".toList "1.2K".toList "d".toList =
      some (.File { url := "http://h/pub/sub", name := "f",
                    last_modified := "2021-01-01 10:00", size := "1.2K",
                    description := "d" }) ∧
    processCaptures baseU "sub///////".toList "f".toList
        "2021-01-01 10:00".toList "  - ".toList "d".toList =
      some (.PendingDir { url := "http://h/pub/sub///////", name := "f",
                          last_modified := "2021-01-01 10:00",
                          description := "d" }) := by
  refine ⟨?_, ?_, ?_, ?_⟩
  · exact c3_clean_url_bounded_and_file_only.1
      { scheme := "http", host := "h", segs := ["sub"] ++ List.replicate 7 "" }
      ["sub"] 7 rfl (by decide) (by decide)
  · exact c3_clean_url_bounded_and_file_only.1
      { scheme := "http", host := "h", segs := ["a"] ++ List.replicate 20 "" }
      ["a"] 20 rfl (by decide) (by decide)
  · exact (c3_clean_url_bounded_and_file_only.2 baseU "sub///////".toList
      "f".toList "2021-01-01 10:00".toList "1.2K".toList "d".toList
      { scheme := "http", host := "h",
        segs := ["pub", "sub", "", "", "", "", "", "", ""] } rfl).2 (by decide)
  · exact (c3_clean_url_bounded_and_file_only.2 baseU "sub///////".toList
      "f".toList "2021-01-01 10:00".toList "  - ".toList "d".toList
      { scheme := "http", host := "h",
        segs := ["pub", "sub", "", "", "", "", "", "", ""] } rfl).1 (by decide)

/-! ## C2 -/

/-- A matching row whose href is `http://` (which `Url::join` rejects
for its empty host). -/
def c2BadLine : String :=
  "</td><td><a href=\"http://\">x</a></td><td align=\"right\">2021-01-01 10:00  </td><td align=\"right\">1.2K</td><td>d</td></tr>"

/-- C2 counterexample: a line that *does* match the record pattern (the
five captures are shown) for which `cheap_process_row` produces *no*
entry, because resolving the captured href `http://` against the base
URL fails and the `.ok()?` swallows the row — refuting "produces
exactly one entry" for every matching line. -/
theorem c2_counterexample :
    rxMainCaptures c2BadLine.toList =
      some ["http://".toList, "x".toList, "2021-01-01 10:00".toList,
            "1.2K".toList, "d".toList] ∧
    cheap_process_row baseU c2BadLine.toList = none :=
  ⟨rfl, rfl⟩

/-- C2 (amended): for every line matching the record pattern *whose
captured href resolves against the base URL*, the row parser produces
exactly one entry — a `PendingDir` exactly when the captured size is the
placeholder `"  - "`, and otherwise a `File` carrying that size; a
matching line whose href fails to resolve produces no entry. -/
theorem c2_row_classification (base : Url) (line href name date size desc : List Char)
    (hm : rxMainCaptures line = some [href, name, date, size, desc])
    (u : Url) (hj : base.join href.asString = some u) :
    (size.asString = EMPTY_SIZE_STRING →
      cheap_process_row base line =
        some (.PendingDir { url := u.toString, name := name.asString,
                            last_modified := date.asString,
                            description := desc.asString })) ∧
    (size.asString ≠ EMPTY_SIZE_STRING →
      cheap_process_row base line =
        some (.File { url := (clean_url u).toString, name := name.asString,
                      last_modified := date.asString, size := size.asString,
                      description := desc.asString })) ∧
    ∀ n, cheap_process_row base line = some n →
      (n.isPendingDir = true ↔ size.asString = EMPTY_SIZE_STRING) := by
  have hrow : cheap_process_row base line =
      processCaptures base href name date size desc := by
    simp only [cheap_process_row, hm]
  refine ⟨?_, ?_, ?_⟩
  · intro hsz
    rw [hrow]
    simp only [processCaptures, hj, if_pos hsz]
  · intro hsz
    rw [hrow]
    simp only [processCaptures, hj, if_neg hsz]
  · intro n hn
    by_cases hsz : size.asString = EMPTY_SIZE_STRING
    · rw [hrow] at hn
      simp only [processCaptures, hj, if_pos hsz, Option.some.injEq] at hn
      subst hn
      simp [Node.isPendingDir, hsz]
    · rw [hrow] at hn
      simp only [processCaptures, hj, if_neg hsz, Option.some.injEq] at hn
      subst hn
      simp [Node.isPendingDir, hsz]

/-- C2 witness: the amended claim on the concrete directory row and the
concrete file row. -/
theorem c2_row_classification_witness :
    cheap_process_row baseU dirRow.toList =
      some (.PendingDir { url := "http://h/pub/sub/", name := "sub",
                          last_modified := "2021-01-01 10:00",
                          description := "x" }) ∧
    cheap_process_row baseU fileRow.toList =
      some (.File { url := "http://h/pub/f.txt", name := "f.txt",
                    last_modified := "2021-01-01 10:00", size := "1.2K",
                    description := "d" }) :=
  ⟨(c2_row_classification baseU dirRow.toList "sub/".toList "sub".toList
      "2021-01-01 10:00".toList "  - ".toList "x".toList rfl
      { scheme := "http", host := "h", segs := ["pub", "sub", ""] } rfl).1
      (by decide),
   (c2_row_classification baseU fileRow.toList "f.txt".toList "f.txt".toList
      "2021-01-01 10:00".toList "1.2K".toList "d".toList rfl
      { scheme := "http", host := "h", segs := ["pub", "f.txt"] } rfl).2.1
      (by decide)⟩

/-! ## C7: correctness of the embedded `RX_TITLE` matcher

`RX_TITLE = "<h1>Index of (.+?)</h1>"` locates a heading exactly when the
text decomposes as `pre ++ "<h1>Index of " ++ cap ++ "</h1>" ++ post`
with `cap` non-empty and newline-free (`.` does not match `\n`), and the
leftmost-first/lazy semantics pick the earliest start and the shortest
such capture. -/

/-- The text contains an `Index of <name>` heading (a match of
`RX_TITLE`): a non-empty, newline-free name between the two literals. -/
def HasTitleHeading (html : List Char) : Prop :=
  ∃ pre cap post,
    html = pre ++ titleLit ++ cap ++ titleClose ++ post ∧ cap ≠ [] ∧ '\n' ∉ cap

/-- Soundness of the lazy capture: a successful capture decomposes the
input, is non-empty, and contains no newline. -/
theorem lazyCap_sound (close : List Char) :
    ∀ (s cap rest : List Char), lazyCap close s = some (cap, rest) →
      s = cap ++ close ++ rest ∧ cap ≠ [] ∧ '\n' ∉ cap := by
  intro s
  induction s with
  | nil => intro cap rest h; simp [lazyCap] at h
  | cons c s ih =>
    intro cap rest h
    simp only [lazyCap] at h
    by_cases hnl : c = '\n'
    · rw [if_pos hnl] at h; simp at h
    · rw [if_neg hnl] at h
      by_cases hp : close.isPrefixOf s = true
      · rw [if_pos hp] at h
        simp only [Option.some.injEq, Prod.mk.injEq] at h
        obtain ⟨rfl, rfl⟩ := h
        obtain ⟨t, ht⟩ := List.isPrefixOf_iff_prefix.mp hp
        subst ht
        refine ⟨?_, by simp, by simp; exact fun he => hnl he.symm⟩
        rw [List.drop_left]
        simp
      · rw [if_neg hp] at h
        rcases hl : lazyCap close s with _ | ⟨cap', rest'⟩ <;> rw [hl] at h
        · simp at h
        · simp only [Option.some.injEq, Prod.mk.injEq] at h
          obtain ⟨rfl, rfl⟩ := h
          obtain ⟨hseq, hne, hnl'⟩ := ih cap' rest' hl
          refine ⟨by rw [hseq]; simp, by simp, ?_⟩
          simp only [List.mem_cons, not_or]
          exact ⟨fun he => hnl he.symm, hnl'⟩

/-- Completeness of the lazy capture: on an input of the right shape it
succeeds. -/
theorem lazyCap_isSome (close rest : List Char) :
    ∀ cap : List Char, cap ≠ [] → '\n' ∉ cap →
      (lazyCap close (cap ++ close ++ rest)).isSome := by
  intro cap
  induction cap with
  | nil => intro h _; exact absurd rfl h
  | cons a t ih =>
    intro _ hnl
    have ha : a ≠ '\n' := fun h => hnl (by rw [h]; exact List.mem_cons_self '\n' t)
    rw [show (a :: t) ++ close ++ rest = a :: (t ++ close ++ rest) from by simp]
    simp only [lazyCap]
    rw [if_neg ha]
    by_cases hp : close.isPrefixOf (t ++ close ++ rest) = true
    · rw [if_pos hp]; simp
    · rw [if_neg hp]
      cases t with
      | nil => exact absurd (List.isPrefixOf_iff_prefix.mpr ⟨rest, by simp⟩) hp
      | cons b u =>
        have h2 := ih (by simp) (fun hm => hnl (List.mem_cons_of_mem a hm))
        rcases hl : lazyCap close ((b :: u) ++ close ++ rest) with _ | p
        · rw [hl] at h2; simp at h2
        · obtain ⟨cap', rest'⟩ := p
          simp

/-- Minimality of the lazy capture: no shorter valid capture exists at
the same start position. -/
theorem lazyCap_minimal (close : List Char) :
    ∀ (s cap rest : List Char), lazyCap close s = some (cap, rest) →
      ∀ cap2 rest2, s = cap2 ++ close ++ rest2 → cap2 ≠ [] → '\n' ∉ cap2 →
        cap.length ≤ cap2.length := by
  intro s
  induction s with
  | nil => intro cap rest h; simp [lazyCap] at h
  | cons c s ih =>
    intro cap rest h cap2 rest2 heq hne2 hnl2
    simp only [lazyCap] at h
    by_cases hc : c = '\n'
    · rw [if_pos hc] at h; simp at h
    · rw [if_neg hc] at h
      by_cases hp : close.isPrefixOf s = true
      · rw [if_pos hp] at h
        simp only [Option.some.injEq, Prod.mk.injEq] at h
        obtain ⟨h1, -⟩ := h
        rw [← h1]
        simpa using List.length_pos.mpr hne2
      · rw [if_neg hp] at h
        rcases hl : lazyCap close s with _ | ⟨cap', rest'⟩ <;> rw [hl] at h
        · simp at h
        · simp only [Option.some.injEq, Prod.mk.injEq] at h
          obtain ⟨h1, -⟩ := h
          rw [← h1]
          cases cap2 with
          | nil => exact absurd rfl hne2
          | cons c2 t2 =>
            rw [List.cons_append, List.cons_append] at heq
            injection heq with hc2 h2
            cases t2 with
            | nil =>
              exact absurd
                (List.isPrefixOf_iff_prefix.mpr ⟨rest2, by simp [h2]⟩) hp
            | cons b u =>
              have h3 := ih cap' rest' hl (b :: u) rest2 h2 (by simp)
                (fun hm => hnl2 (List.mem_cons_of_mem c2 hm))
              simp only [List.length_cons] at h3 ⊢
              omega

/-- The one-capture `matchCaps` is the lazy capture, wrapped. -/
theorem matchCaps_single (close s : List Char) :
    matchCaps [close] s =
      match lazyCap close s with
      | some (cap, _) => some [cap]
      | none => none := by
  rcases h : lazyCap close s with _ | ⟨cap, rest⟩ <;> simp [matchCaps, h]

/-- Anchored completeness: the pattern matches at the start of an input
of the right shape. -/
theorem matchHere_single_isSome (lit close cap post : List Char)
    (hne : cap ≠ []) (hnl : '\n' ∉ cap) :
    (matchHere lit [close] (lit ++ cap ++ close ++ post)).isSome := by
  have hre : lit ++ cap ++ close ++ post = lit ++ (cap ++ close ++ post) := by
    simp [List.append_assoc]
  simp only [matchHere]
  rw [hre, if_pos (List.isPrefixOf_iff_prefix.mpr ⟨cap ++ close ++ post, rfl⟩),
    List.drop_left, matchCaps_single]
  have h2 := lazyCap_isSome close post cap hne hnl
  rcases hl : lazyCap close (cap ++ close ++ post) with _ | p
  · rw [hl] at h2; simp at h2
  · obtain ⟨cap', rest'⟩ := p
    simp

/-- Anchored soundness: a match at the start decomposes the input with a
valid capture, and the capture is the shortest valid one. -/
theorem matchHere_single_sound (lit close s : List Char) (caps : List (List Char))
    (h : matchHere lit [close] s = some caps) :
    ∃ cap rest, caps = [cap] ∧ s = lit ++ cap ++ close ++ rest ∧
      cap ≠ [] ∧ '\n' ∉ cap ∧
      ∀ cap2 rest2, s = lit ++ cap2 ++ close ++ rest2 → cap2 ≠ [] →
        '\n' ∉ cap2 → cap.length ≤ cap2.length := by
  simp only [matchHere] at h
  by_cases hp : lit.isPrefixOf s = true
  · rw [if_pos hp, matchCaps_single] at h
    rcases hl : lazyCap close (s.drop lit.length) with _ | ⟨cap, rest⟩ <;> rw [hl] at h
    · simp at h
    · simp only [Option.some.injEq] at h
      subst h
      obtain ⟨t, ht⟩ := List.isPrefixOf_iff_prefix.mp hp
      obtain ⟨hseq, hne, hnl⟩ := lazyCap_sound close (s.drop lit.length) cap rest hl
      rw [← ht, List.drop_left] at hseq hl
      refine ⟨cap, rest, rfl, by rw [← ht, hseq]; simp [List.append_assoc], hne, hnl, ?_⟩
      intro cap2 rest2 heq hne2 hnl2
      rw [← ht] at heq
      have ht2 : t = cap2 ++ close ++ rest2 := by
        rw [show lit ++ cap2 ++ close ++ rest2 = lit ++ (cap2 ++ close ++ rest2) from
          by simp [List.append_assoc]] at heq
        exact List.append_cancel_left heq
      exact lazyCap_minimal close t cap rest hl cap2 rest2 ht2 hne2 hnl2
  · rw [if_neg hp] at h; simp at h

/-- A match anchored anywhere is found by the scan. -/
theorem searchPattern_of_here (lit : List Char) (closes : List (List Char))
    (s : List Char) (caps : List (List Char))
    (h : matchHere lit closes s = some caps) :
    searchPattern lit closes s = some caps := by
  cases s with
  | nil => simpa [searchPattern] using h
  | cons c r => simp [searchPattern, h]

/-- When the pattern does not match at the head position, the scan
continues on the tail. -/
theorem searchPattern_cons (lit : List Char) (closes : List (List Char))
    (c : Char) (s : List Char) (h : matchHere lit closes (c :: s) = none) :
    searchPattern lit closes (c :: s) = searchPattern lit closes s := by
  simp [searchPattern, h]

/-- Completeness of the leftmost scan for the one-capture pattern. -/
theorem searchPattern_single_isSome (lit close : List Char) :
    ∀ (pre cap post : List Char), cap ≠ [] → '\n' ∉ cap →
      (searchPattern lit [close] (pre ++ lit ++ cap ++ close ++ post)).isSome := by
  intro pre
  induction pre with
  | nil =>
    intro cap post hne hnl
    simp only [List.nil_append]
    have h := matchHere_single_isSome lit close cap post hne hnl
    rcases hh : matchHere lit [close] (lit ++ cap ++ close ++ post) with _ | caps
    · rw [hh] at h; simp at h
    · rw [searchPattern_of_here lit [close] _ caps hh]; simp
  | cons c pre ih =>
    intro cap post hne hnl
    rw [show (c :: pre) ++ lit ++ cap ++ close ++ post =
      c :: (pre ++ lit ++ cap ++ close ++ post) from by simp]
    rcases hh : matchHere lit [close] (c :: (pre ++ lit ++ cap ++ close ++ post))
      with _ | caps
    · rw [searchPattern_cons lit [close] c _ hh]
      exact ih cap post hne hnl
    · rw [searchPattern_of_here lit [close] _ caps hh]; simp

/-- Soundness of the leftmost scan for the one-capture pattern: the
returned capture comes from a valid decomposition, at the leftmost
viable start, with the shortest viable capture there. -/
theorem searchPattern_single_sound (lit close : List Char) (hlit : lit ≠ []) :
    ∀ (s : List Char) (caps : List (List Char)),
      searchPattern lit [close] s = some caps →
      ∃ pre cap post, caps = [cap] ∧ s = pre ++ lit ++ cap ++ close ++ post ∧
        cap ≠ [] ∧ '\n' ∉ cap ∧
        (∀ pre2 cap2 post2, s = pre2 ++ lit ++ cap2 ++ close ++ post2 →
          cap2 ≠ [] → '\n' ∉ cap2 → pre.length ≤ pre2.length) ∧
        (∀ cap2 post2, s = pre ++ lit ++ cap2 ++ close ++ post2 →
          cap2 ≠ [] → '\n' ∉ cap2 → cap.length ≤ cap2.length) := by
  intro s
  induction s with
  | nil =>
    intro caps h
    simp only [searchPattern, matchHere] at h
    rw [if_neg] at h
    · simp at h
    · intro hp
      obtain ⟨t, ht⟩ := List.isPrefixOf_iff_prefix.mp hp
      exact hlit (List.append_eq_nil.mp ht).1
  | cons c s ih =>
    intro caps h
    rcases hh : matchHere lit [close] (c :: s) with _ | caps0
    · rw [searchPattern_cons lit [close] c s hh] at h
      obtain ⟨pre, cap, post, hcaps, hseq, hne, hnl, hleft, hmin⟩ := ih caps h
      refine ⟨c :: pre, cap, post, hcaps, by rw [hseq]; simp, hne, hnl, ?_, ?_⟩
      · intro pre2 cap2 post2 heq hne2 hnl2
        cases pre2 with
        | nil =>
          exfalso
          have hsome := matchHere_single_isSome lit close cap2 post2 hne2 hnl2
          rw [show lit ++ cap2 ++ close ++ post2 = c :: s from by
            rw [heq]; simp] at hsome
          rw [hh] at hsome
          simp at hsome
        | cons c2 pre2' =>
          have heq' : s = pre2' ++ lit ++ cap2 ++ close ++ post2 := by
            simp only [List.cons_append, List.cons.injEq] at heq
            exact heq.2
          have h3 := hleft pre2' cap2 post2 heq' hne2 hnl2
          simp only [List.length_cons]
          omega
      · intro cap2 post2 heq hne2 hnl2
        have heq' : s = pre ++ lit ++ cap2 ++ close ++ post2 := by
          simp only [List.cons_append, List.cons.injEq] at heq
          exact heq.2
        exact hmin cap2 post2 heq' hne2 hnl2
    · rw [searchPattern_of_here lit [close] _ caps0 hh] at h
      simp only [Option.some.injEq] at h
      subst h
      obtain ⟨cap, rest, hcaps, hseq, hne, hnl, hmin⟩ :=
        matchHere_single_sound lit close (c :: s) caps0 hh
      refine ⟨[], cap, rest, hcaps, by simpa using hseq, hne, hnl, ?_, ?_⟩
      · intro pre2 cap2 post2 _ _ _; simp
      · intro cap2 post2 heq hne2 hnl2
        exact hmin cap2 post2 (by simpa using heq) hne2 hnl2

/-- C7: the listing parser fails — with the `CANNOT_PARSE_DIRECTORY`
(`MalformedListing`) error — exactly when the text contains no
`Index of <name>` heading; and when headings exist, the parse succeeds
and the returned title is the capture of the *first* match (earliest
start position, shortest capture there). -/
theorem c7_malformed_iff_no_heading (html : List Char) (base : Url) :
    (cheap_extract_from_html html base = .error .cannotParseDirectory ↔
      ¬ HasTitleHeading html) ∧
    (∀ (t : String) (nodes : List Node),
      cheap_extract_from_html html base = .ok (t, nodes) →
      ∃ pre post, html = pre ++ titleLit ++ t.toList ++ titleClose ++ post ∧
        t.toList ≠ [] ∧ '\n' ∉ t.toList ∧
        (∀ pre2 cap2 post2,
          html = pre2 ++ titleLit ++ cap2 ++ titleClose ++ post2 →
          cap2 ≠ [] → '\n' ∉ cap2 → pre.length ≤ pre2.length) ∧
        (∀ cap2 post2,
          html = pre ++ titleLit ++ cap2 ++ titleClose ++ post2 →
          cap2 ≠ [] → '\n' ∉ cap2 → t.toList.length ≤ cap2.length)) := by
  have hlit : titleLit ≠ [] := by decide
  constructor
  · constructor
    · intro herr hhead
      obtain ⟨pre, cap, post, hseq, hne, hnl⟩ := hhead
      have hsome := searchPattern_single_isSome titleLit titleClose pre cap post hne hnl
      rw [← hseq] at hsome
      rcases hs : searchPattern titleLit [titleClose] html with _ | caps
      · rw [hs] at hsome; simp at hsome
      · obtain ⟨pre', cap', post', hcaps, -, -, -, -, -⟩ :=
          searchPattern_single_sound titleLit titleClose hlit html caps hs
        subst hcaps
        simp only [cheap_extract_from_html, get_first, rxTitleCapture, hs] at herr
        exact Except.noConfusion herr
    · intro hno
      rcases hs : searchPattern titleLit [titleClose] html with _ | caps
      · simp only [cheap_extract_from_html, get_first, rxTitleCapture, hs]
      · exfalso
        obtain ⟨pre, cap, post, hcaps, hseq, hne, hnl, -, -⟩ :=
          searchPattern_single_sound titleLit titleClose hlit html caps hs
        exact hno ⟨pre, cap, post, hseq, hne, hnl⟩
  · intro t nodes hok
    rcases hs : searchPattern titleLit [titleClose] html with _ | caps
    · simp only [cheap_extract_from_html, get_first, rxTitleCapture, hs] at hok
      exact Except.noConfusion hok
    · obtain ⟨pre, cap, post, hcaps, hseq, hne, hnl, hleft, hmin⟩ :=
        searchPattern_single_sound titleLit titleClose hlit html caps hs
      subst hcaps
      simp only [cheap_extract_from_html, get_first, rxTitleCapture, hs,
        Except.ok.injEq, Prod.mk.injEq] at hok
      obtain ⟨hT, -⟩ := hok
      have htl : t.toList = cap := by rw [← hT]; rfl
      rw [htl]
      exact ⟨pre, post, hseq, hne, hnl, hleft, hmin⟩

/-- C7 witness: for the concrete page `junk\n<h1>Index of /pub</h1>` the
parse succeeds and the theorem's first-match decomposition holds at that
page. -/
theorem c7_malformed_iff_no_heading_witness :
    ∃ pre post,
      "junk\n<h1>Index of /pub</h1>".toList =
        pre ++ titleLit ++ "/pub".toList ++ titleClose ++ post ∧
      "/pub".toList ≠ [] ∧ '\n' ∉ "/pub".toList ∧
      (∀ pre2 cap2 post2,
        "junk\n<h1>Index of /pub</h1>".toList =
          pre2 ++ titleLit ++ cap2 ++ titleClose ++ post2 →
        cap2 ≠ [] → '\n' ∉ cap2 → pre.length ≤ pre2.length) ∧
      (∀ cap2 post2,
        "junk\n<h1>Index of /pub</h1>".toList =
          pre ++ titleLit ++ cap2 ++ titleClose ++ post2 →
        cap2 ≠ [] → '\n' ∉ cap2 → "/pub".toList.length ≤ cap2.length) := by
  have h := (c7_malformed_iff_no_heading
    "junk\n<h1>Index of /pub</h1>".toList baseU).2 "/pub" [] rfl
  exact h

end OdGet
